import Mathlib

/-!
Shallow embedding of the uplift session-coordination core.

The embedding follows the Go sources of the repository:
  - `internal/session/session.go` (Session, Participant, Note, phase machine)
  - `internal/session/manager.go` (Manager, code lookup, periodic cleanup)
  - `internal/websocket/validation.go` (input validation helpers)
  - the websocket message handler (`HandleClientDisconnect`, `handleJoinSession`)

Modelling conventions:
  - Go maps keyed by id are lists of entries; map iteration order is the list
    order, map insertion is cons (overwriting any older entry with the key),
    map deletion is a filter on the key.
  - `time.Time` is an `Int` (seconds); `time.Now()` becomes an explicit
    `now` parameter, and `t.Before(u)` is `t < u`.
  - random generation (`generateID`, `generateSessionCode`) is modelled by
    passing the generated strings as parameters.
  - a Go method that can fail returns `Except String α × Session`: the error
    paths of the source return before mutating the receiver, so the second
    component is the unchanged session on every error.
-/

namespace Uplift

/-- Phase of a gratitude circle session (session.go `Phase`). -/
inductive Phase where
  | joining
  | writing
  | reading
  | complete
deriving DecidableEq, Repr

/-- Position of a phase in the forward order JOINING, WRITING, READING, COMPLETE. -/
def Phase.idx : Phase → Nat
  | .joining => 0
  | .writing => 1
  | .reading => 2
  | .complete => 3

/-- Participant (session.go `Participant`). -/
structure Participant where
  id : String
  name : String
  isHost : Bool
  joinedAt : Int
deriving DecidableEq, Repr

/-- Gratitude note (session.go `Note`). -/
structure Note where
  id : String
  content : String
  authorID : String
  recipientID : String
  read : Bool
deriving DecidableEq, Repr

/-- Session state (session.go `Session`).  `participants` models the Go map
`map[string]*Participant` keyed by `Participant.ID`.  The `completedAt` field
is read by manager.go (`cleanupSessions`) and asserted by the tests
(`TestSessionCompletion`, `TestCleanupCompletedSessions`); its declaration in
the `Session` struct is not part of the session.go snapshot, so it is modelled
from the spec: "completed timestamp (set once, on entering COMPLETE)". -/
structure Session where
  id : String
  code : String
  phase : Phase
  participants : List Participant
  notes : List Note
  createdAt : Int
  completedAt : Option Int
  hostID : String
  currentTurn : Nat
deriving DecidableEq, Repr

/-- Placeholder participant used as the default of `List.getD`; every indexed
access in the source is guarded by a length check, so it is never returned. -/
def dummyParticipant : Participant :=
  { id := "", name := "", isHost := false, joinedAt := 0 }

/-- NewSession (session.go): fresh JOINING session whose only participant is
the host.  The generated code, host id and session id are parameters. -/
def newSession (hostName code hostID sessID : String) (now : Int) : Session :=
  { id := sessID
    code := code
    phase := Phase.joining
    participants := [{ id := hostID, name := hostName, isHost := true, joinedAt := now }]
    notes := []
    createdAt := now
    completedAt := none
    hostID := hostID
    currentTurn := 0 }

/-- AddParticipant (session.go): valid only in JOINING. -/
def Session.addParticipant (s : Session) (name newID : String) (now : Int) :
    Except String Participant × Session :=
  if s.phase ≠ Phase.joining then
    (Except.error "cannot join: session has already started", s)
  else
    let p : Participant := { id := newID, name := name, isHost := false, joinedAt := now }
    (Except.ok p, { s with participants := s.participants ++ [p] })

/-- AddNote (session.go): valid only in WRITING; author and recipient must be
participants, distinct, and the ordered pair must not already have a note. -/
def Session.addNote (s : Session) (authorID recipientID content newID : String) :
    Except String Unit × Session :=
  if s.phase ≠ Phase.writing then
    (Except.error "cannot add note: not in writing phase", s)
  else if ¬ s.participants.any (fun p => p.id == authorID) then
    (Except.error "author not found in session", s)
  else if ¬ s.participants.any (fun p => p.id == recipientID) then
    (Except.error "recipient not found in session", s)
  else if authorID = recipientID then
    (Except.error "cannot write note to yourself", s)
  else if s.notes.any (fun n => n.authorID == authorID && n.recipientID == recipientID) then
    (Except.error "note already written to this person", s)
  else
    (Except.ok (),
      { s with notes := s.notes ++
          [{ id := newID, content := content, authorID := authorID,
             recipientID := recipientID, read := false }] })

/-- TransitionToWriting (session.go): JOINING with at least 2 participants. -/
def Session.transitionToWriting (s : Session) : Except String Unit × Session :=
  if s.phase ≠ Phase.joining then
    (Except.error "can only transition to writing from joining phase", s)
  else if s.participants.length < 2 then
    (Except.error "need at least 2 participants to start", s)
  else
    (Except.ok (), { s with phase := Phase.writing })

/-- TransitionToReading (session.go): WRITING with exactly
`participantCount * (participantCount - 1)` notes. -/
def Session.transitionToReading (s : Session) : Except String Unit × Session :=
  if s.phase ≠ Phase.writing then
    (Except.error "can only transition to reading from writing phase", s)
  else if s.notes.length ≠ s.participants.length * (s.participants.length - 1) then
    (Except.error "not all notes have been written", s)
  else
    (Except.ok (), { s with phase := Phase.reading })

/-- GetUnreadNotes (session.go). -/
def Session.getUnreadNotes (s : Session) : List Note :=
  s.notes.filter (fun n => !n.read)

/-- GetAvailableNotesForReader and its unlocked helper (session.go): unread
notes not authored by the reader, and in sessions of more than two
participants also not addressed to the reader. -/
def Session.availableNotesFor (s : Session) (readerID : String) : List Note :=
  s.notes.filter (fun note =>
    !note.read && !(note.authorID == readerID) &&
      !(decide (2 < s.participants.length) && note.recipientID == readerID))

/-- Read-flag update of the first note carrying the id; `none` when no note
has the id (the loop of MarkNoteAsRead in session.go). -/
def markReadList : List Note → String → Option (List Note)
  | [], _ => none
  | n :: rest, noteID =>
    if n.id == noteID then
      some ({ n with read := true } :: rest)
    else
      match markReadList rest noteID with
      | some rest2 => some (n :: rest2)
      | none => none

/-- MarkNoteAsRead (session.go). -/
def Session.markNoteAsRead (s : Session) (noteID : String) : Except String Unit × Session :=
  match markReadList s.notes noteID with
  | some notes2 => (Except.ok (), { s with notes := notes2 })
  | none => (Except.error "note not found", s)

/-- Order on participants used by getParticipantsSorted: by id.  The Go
source sorts with the strict comparator `participants[i].ID <
participants[j].ID`; since map keys are unique the resulting order is the
unique nondecreasing-by-id order, which insertion sort by `≤` produces. -/
def idLE (a b : Participant) : Prop := a.id ≤ b.id

instance : DecidableRel idLE := fun a b =>
  decidable_of_iff (a.id.toList ≤ b.id.toList) String.le_iff_toList_le.symm

instance : IsTotal Participant idLE := ⟨fun a b => le_total a.id b.id⟩

instance : IsTrans Participant idLE := ⟨fun _ _ _ => le_trans⟩

/-- Strict version of `idLE`, used to identify sorted lists of id-distinct
participants. -/
def idLT (a b : Participant) : Prop := a.id < b.id

instance : DecidableRel idLT := fun a b => inferInstanceAs (Decidable (a.id < b.id))

instance : IsAntisymm Participant idLT :=
  ⟨fun a _ h1 h2 => absurd (lt_trans h1 h2) (lt_irrefl a.id)⟩

/-- getParticipantsSorted (session.go): participants in stable sorted order
by id. -/
def Session.participantsSorted (s : Session) : List Participant :=
  List.insertionSort idLE s.participants

/-- GetCurrentReader (session.go): the participant at index
`currentTurn % participantCount` of the sorted participant list, only in
READING and only when the session has participants. -/
def Session.getCurrentReader (s : Session) : Option Participant :=
  if s.phase ≠ Phase.reading then
    none
  else if s.participantsSorted.length = 0 then
    none
  else
    some (s.participantsSorted.getD (s.currentTurn % s.participantsSorted.length)
      dummyParticipant)

/-- Modelled from the spec: the completion step of `advanceTurn` — missing
from the session.go snapshot, whose `Session` struct carries no completion
field even though manager.go and the tests read `CompletedAt`.  Per the spec,
the session "transitions to COMPLETE and records the completion timestamp",
the completed timestamp being "set once, on entering COMPLETE". -/
def Session.completeWith (s : Session) (now : Int) : Session :=
  { s with
    phase := Phase.complete
    completedAt := match s.completedAt with
      | none => some now
      | some t => some t }

/-- Loop body of AdvanceTurn (session.go): up to `fuel` attempts, each
incrementing the turn counter and stopping at the first reader with an
available note; when the attempts are exhausted the source checks whether
every note is read and forces COMPLETE in either case. -/
def Session.advanceLoop (ps : List Participant) (now : Int) : Nat → Session → Session
  | 0, s =>
    if s.notes.all (fun n => n.read) then
      s.completeWith now
    else
      s.completeWith now
  | fuel + 1, s =>
    let s1 := { s with currentTurn := s.currentTurn + 1 }
    let reader := ps.getD (s1.currentTurn % ps.length) dummyParticipant
    if 0 < (s1.availableNotesFor reader.id).length then
      s1
    else
      Session.advanceLoop ps now fuel s1

/-- AdvanceTurn (session.go): no-op on an empty roster, otherwise one full
cycle of attempts over the sorted participants.  The method returns no error
in the source (signature `func (s *Session) AdvanceTurn()`). -/
def Session.advanceTurn (s : Session) (now : Int) : Session :=
  let ps := s.participantsSorted
  if ps.length = 0 then
    s
  else
    Session.advanceLoop ps now ps.length s

/-- RemoveParticipant (session.go): map lookup followed by map delete. -/
def Session.removeParticipant (s : Session) (participantID : String) :
    Except String Participant × Session :=
  match s.participants.find? (fun p => p.id == participantID) with
  | none => (Except.error "participant not found", s)
  | some p =>
      (Except.ok p,
        { s with participants := s.participants.filter (fun q => q.id != participantID) })

/-- HasParticipant (session.go). -/
def Session.hasParticipant (s : Session) (participantID : String) : Bool :=
  s.participants.any (fun p => p.id == participantID)

/-! ## Manager (manager.go) -/

/-- strings.TrimSpace (Go): removes leading and trailing white space,
modelled rune-wise on the character list. -/
def strTrim (s : String) : String :=
  String.mk (((s.data.dropWhile Char.isWhitespace).reverse.dropWhile
    Char.isWhitespace).reverse)

/-- strings.ToUpper (Go): upper-cases every rune.  `Char.toUpper` covers the
ASCII range, which covers the base32 session codes. -/
def strUpper (s : String) : String :=
  String.mk (s.data.map Char.toUpper)

/-- Key normalisation applied by the manager on every code write and lookup:
`strings.ToUpper(strings.TrimSpace(code))`. -/
def normalizeCode (code : String) : String :=
  strUpper (strTrim code)

/-- Session store of the manager; both Go maps as entry lists. -/
structure Manager where
  sessions : List (String × Session)
  sessionsByCode : List (String × Session)
deriving Repr

/-- Map lookup on an entry list. -/
def lookupKey (l : List (String × Session)) (k : String) : Option Session :=
  (l.find? (fun e => e.1 == k)).map (fun e => e.2)

/-- Map deletion on an entry list. -/
def eraseKey (l : List (String × Session)) (k : String) : List (String × Session) :=
  l.filter (fun e => e.1 != k)

/-- Map assignment on an entry list: the new binding shadows (replaces) any
existing binding of the key, as a Go map assignment does. -/
def insertKey (l : List (String × Session)) (k : String) (v : Session) :
    List (String × Session) :=
  (k, v) :: eraseKey l k

/-- NewManager (manager.go). -/
def newManager : Manager :=
  { sessions := [], sessionsByCode := [] }

/-- CreateSession (manager.go): builds the session and stores it under its id
and under its normalised code. -/
def Manager.createSession (m : Manager) (hostName code hostID sessID : String)
    (now : Int) : Session × Manager :=
  let sess := newSession hostName code hostID sessID now
  (sess,
    { sessions := insertKey m.sessions sess.id sess
      sessionsByCode := insertKey m.sessionsByCode (normalizeCode sess.code) sess })

/-- GetSessionByID (manager.go). -/
def Manager.getSessionByID (m : Manager) (sessionID : String) : Except String Session :=
  match lookupKey m.sessions sessionID with
  | some sess => Except.ok sess
  | none => Except.error "session not found"

/-- GetSessionByCode (manager.go): case-insensitive via key normalisation. -/
def Manager.getSessionByCode (m : Manager) (code : String) : Except String Session :=
  match lookupKey m.sessionsByCode (normalizeCode code) with
  | some sess => Except.ok sess
  | none => Except.error "session not found"

/-- RemoveSession (manager.go): deletes the id entry and the code entry. -/
def Manager.removeSession (m : Manager) (sessionID : String) :
    Except String Unit × Manager :=
  match lookupKey m.sessions sessionID with
  | none => (Except.error "session not found", m)
  | some sess =>
      (Except.ok (),
        { sessions := eraseKey m.sessions sessionID
          sessionsByCode := eraseKey m.sessionsByCode (normalizeCode sess.code) })

/-- Removal predicate of cleanupSessions (manager.go): abandoned sessions
(no participants), or COMPLETE sessions whose completion timestamp is set and
before `now` minus one hour (3600 seconds). -/
def shouldRemoveSession (sess : Session) (now : Int) : Bool :=
  if sess.participants.length = 0 then
    true
  else if sess.phase == Phase.complete then
    match sess.completedAt with
    | some t => decide (t < now - 3600)
    | none => false
  else
    false

/-- One iteration of the cleanup loop (manager.go): deleting both index
entries of a session that matches the removal predicate. -/
def sweepStep (now : Int) (m : Manager) (entry : String × Session) : Manager :=
  if shouldRemoveSession entry.2 now then
    { sessions := eraseKey m.sessions entry.1
      sessionsByCode := eraseKey m.sessionsByCode (normalizeCode entry.2.code) }
  else
    m

/-- cleanupSessions (manager.go): iterates over the session map, removing
matching sessions from both indexes. -/
def Manager.cleanupSessions (m : Manager) (now : Int) : Manager :=
  m.sessions.foldl (sweepStep now) m

/-! ## Input validation (websocket/validation.go) -/

/-- validateUserName (validation.go): trims, then rejects empty or longer
than 100 bytes (`len` in Go counts bytes). -/
def validateUserName (name : String) : Except String String :=
  let name := strTrim name
  if name = "" then
    Except.error "user name cannot be empty"
  else if 100 < name.utf8ByteSize then
    Except.error "user name too long (max 100 characters)"
  else
    Except.ok name

/-- validateNoteContent (validation.go): trims, then rejects empty or longer
than 2000 bytes. -/
def validateNoteContent (content : String) : Except String String :=
  let content := strTrim content
  if content = "" then
    Except.error "note content cannot be empty"
  else if 2000 < content.utf8ByteSize then
    Except.error "note content too long (max 2000 characters)"
  else
    Except.ok content

/-! ## Message handler (websocket message handler file) -/

/-- Session-level effect of handleJoinSession after the session was resolved
by code: the handler only checks that the raw user name is non-empty (the
`!ok || userName == ""` guard) and then calls `AddParticipant` directly; it
never invokes `validateUserName`. -/
def handleJoinSession (sess : Session) (userName newID : String) (now : Int) :
    Except String Participant × Session :=
  if userName = "" then
    (Except.error "user name required", sess)
  else
    sess.addParticipant userName newID now

/-- Session-level effect of HandleClientDisconnect: remember whether the
leaving client was the host, remove it, and if it was the host and
participants remain, promote the first remaining participant (Go map
iteration plus `break`; the list head in this model) to host. -/
def handleClientDisconnect (sess : Session) (userID : String) : Session :=
  let wasHost := userID == sess.hostID
  match sess.removeParticipant userID with
  | (Except.error _, s2) => s2
  | (Except.ok _, s2) =>
      if wasHost && decide (0 < s2.participants.length) then
        match s2.participants with
        | [] => s2
        | p :: rest =>
            { s2 with
              participants := { p with isHost := true } :: rest
              hostID := p.id }
      else
        s2

/-! ## Concrete instances used to evaluate the definitions -/

/-- Two-participant roster: Alice (host) and Bob. -/
def aliceP : Participant :=
  { id := "A", name := "Alice", isHost := true, joinedAt := 0 }

/-- Non-host participant of the examples. -/
def bobP : Participant :=
  { id := "B", name := "Bob", isHost := false, joinedAt := 1 }

/-- Note from Alice to Bob. -/
def noteAB : Note :=
  { id := "n1", content := "thanks", authorID := "A", recipientID := "B", read := false }

/-- Note from Bob to Alice. -/
def noteBA : Note :=
  { id := "n2", content := "cheers", authorID := "B", recipientID := "A", read := false }

/-- A WRITING session with both cross notes written. -/
def sessW : Session :=
  { id := "sid", code := "CODE", phase := Phase.writing,
    participants := [aliceP, bobP], notes := [noteAB, noteBA],
    createdAt := 0, completedAt := none, hostID := "A", currentTurn := 0 }

/-- A READING session with both cross notes unread. -/
def sessR : Session :=
  { sessW with phase := Phase.reading }

/-- A COMPLETE session that finished at time 0. -/
def sessC : Session :=
  { sessW with phase := Phase.complete, completedAt := some 0 }

/-- A session abandoned by all participants. -/
def sessAbandoned : Session :=
  { sessW with id := "s1", code := "AAA1", participants := [] }

/-- A session COMPLETE since two hours before the sweep at time 0. -/
def sessOldComplete : Session :=
  { sessW with
    id := "s2"
    code := "BBB2"
    phase := Phase.complete
    completedAt := some (-7200) }

/-- A session COMPLETE since ten minutes before the sweep at time 0. -/
def sessRecentComplete : Session :=
  { sessW with
    id := "s3"
    code := "CCC3"
    phase := Phase.complete
    completedAt := some (-600) }

/-- Manager holding the three cleanup examples. -/
def sweepManager : Manager :=
  { sessions := [("s1", sessAbandoned), ("s2", sessOldComplete), ("s3", sessRecentComplete)]
    sessionsByCode := [("AAA1", sessAbandoned), ("BBB2", sessOldComplete),
      ("CCC3", sessRecentComplete)] }

/-! ## Helper lemmas -/

theorem Phase.idx_le_three (p : Phase) : p.idx ≤ 3 := by
  cases p <;> simp [Phase.idx]

theorem addParticipant_phase (s : Session) (name newID : String) (now : Int) :
    ((s.addParticipant name newID now).2).phase = s.phase := by
  unfold Session.addParticipant
  split <;> rfl

theorem addNote_phase (s : Session) (a r c i : String) :
    ((s.addNote a r c i).2).phase = s.phase := by
  unfold Session.addNote
  split
  · rfl
  · split
    · rfl
    · split
      · rfl
      · split
        · rfl
        · split <;> rfl

theorem markReadList_some (notes : List Note) (noteID : String) :
    ∀ notes2, markReadList notes noteID = some notes2 →
      notes2.length = notes.length := by
  induction notes with
  | nil => intro notes2 h; simp [markReadList] at h
  | cons n rest ih =>
      intro notes2 h
      unfold markReadList at h
      split at h
      · cases h; simp
      · revert h
        split
        · intro h
          cases h
          simpa using ih _ (by assumption)
        · intro h; cases h

theorem markNoteAsRead_phase (s : Session) (noteID : String) :
    ((s.markNoteAsRead noteID).2).phase = s.phase := by
  unfold Session.markNoteAsRead
  split <;> rfl

theorem removeParticipant_phase (s : Session) (pid : String) :
    ((s.removeParticipant pid).2).phase = s.phase := by
  unfold Session.removeParticipant
  split <;> rfl

theorem transitionToWriting_phase (s : Session) :
    ((s.transitionToWriting).2).phase = s.phase ∨
      (s.phase = Phase.joining ∧ (s.transitionToWriting).2.phase = Phase.writing) := by
  unfold Session.transitionToWriting
  split
  · exact Or.inl rfl
  · split
    · exact Or.inl rfl
    · rename_i h _
      exact Or.inr ⟨not_not.mp h, rfl⟩

theorem transitionToReading_phase (s : Session) :
    ((s.transitionToReading).2).phase = s.phase ∨
      (s.phase = Phase.writing ∧ (s.transitionToReading).2.phase = Phase.reading) := by
  unfold Session.transitionToReading
  split
  · exact Or.inl rfl
  · split
    · exact Or.inl rfl
    · rename_i h _
      exact Or.inr ⟨not_not.mp h, rfl⟩

theorem completeWith_phase (s : Session) (now : Int) :
    (s.completeWith now).phase = Phase.complete := rfl

theorem advanceLoop_phase (ps : List Participant) (now : Int) (fuel : Nat) :
    ∀ s : Session, (Session.advanceLoop ps now fuel s).phase = s.phase ∨
      (Session.advanceLoop ps now fuel s).phase = Phase.complete := by
  induction fuel with
  | zero =>
      intro s
      unfold Session.advanceLoop
      split <;> exact Or.inr rfl
  | succ fuel ih =>
      intro s
      unfold Session.advanceLoop
      dsimp only
      split
      · exact Or.inl rfl
      · exact ih _

theorem advanceTurn_phase (s : Session) (now : Int) :
    (s.advanceTurn now).phase = s.phase ∨ (s.advanceTurn now).phase = Phase.complete := by
  unfold Session.advanceTurn
  dsimp only
  split
  · exact Or.inl rfl
  · exact advanceLoop_phase _ _ _ _

/-! ## Claim theorems -/

/-- C3: `availableMessages(readerId)` returns exactly the notes that are
unread and not authored by the reader, additionally excluding notes addressed
to the reader when the session has more than two participants; with exactly
two participants a note addressed to the reader may be returned (the
recipient exclusion is conditional on more than two participants). -/
theorem availableNotes_mem_iff (s : Session) (readerID : String) (note : Note) :
    note ∈ s.availableNotesFor readerID ↔
      note ∈ s.notes ∧ note.read = false ∧ note.authorID ≠ readerID ∧
        (2 < s.participants.length → note.recipientID ≠ readerID) := by
  unfold Session.availableNotesFor
  simp only [List.mem_filter, Bool.and_eq_true, Bool.not_eq_true', beq_iff_eq,
    Bool.and_eq_false_iff, decide_eq_true_eq, decide_eq_false_iff_not,
    beq_eq_false_iff_ne, ne_eq, and_assoc]
  constructor
  · rintro ⟨hmem, hread, hauthor, hrec⟩
    refine ⟨hmem, hread, hauthor, fun hcount => ?_⟩
    rcases hrec with h | h
    · exact absurd hcount h
    · exact h
  · rintro ⟨hmem, hread, hauthor, hrec⟩
    refine ⟨hmem, hread, hauthor, ?_⟩
    by_cases hcount : 2 < s.participants.length
    · exact Or.inr (hrec hcount)
    · exact Or.inl hcount

/-- C2: `startReading` (`TransitionToReading`) succeeds exactly when the
session is in WRITING and its note count equals
participantCount × (participantCount − 1); in WRITING with any other note
count it fails with the Incomplete error, in any other phase it fails with
the transition error, and on every failure the session is unchanged. -/
theorem transitionToReading_spec (s : Session) :
    (s.phase = Phase.writing →
        s.notes.length = s.participants.length * (s.participants.length - 1) →
        s.transitionToReading = (Except.ok (), { s with phase := Phase.reading })) ∧
    (s.phase = Phase.writing →
        s.notes.length ≠ s.participants.length * (s.participants.length - 1) →
        s.transitionToReading = (Except.error "not all notes have been written", s)) ∧
    (s.phase ≠ Phase.writing →
        s.transitionToReading =
          (Except.error "can only transition to reading from writing phase", s)) := by
  refine ⟨fun h1 h2 => ?_, fun h1 h2 => ?_, fun h1 => ?_⟩ <;>
    simp [Session.transitionToReading, h1, *]

/-- C4: every Session operation leaves the phase unchanged or strictly later
in the order JOINING < WRITING < READING < COMPLETE (measured by
`Phase.idx`): no operation moves the phase backward, and once COMPLETE no
operation changes the phase. -/
theorem phase_forward (s : Session) :
    ((∀ name newID now, s.phase.idx ≤ ((s.addParticipant name newID now).2).phase.idx) ∧
     (∀ a r c i, s.phase.idx ≤ ((s.addNote a r c i).2).phase.idx) ∧
     s.phase.idx ≤ ((s.transitionToWriting).2).phase.idx ∧
     s.phase.idx ≤ ((s.transitionToReading).2).phase.idx ∧
     (∀ noteID, s.phase.idx ≤ ((s.markNoteAsRead noteID).2).phase.idx) ∧
     (∀ now, s.phase.idx ≤ (s.advanceTurn now).phase.idx) ∧
     (∀ pid, s.phase.idx ≤ ((s.removeParticipant pid).2).phase.idx)) ∧
    (s.phase = Phase.complete →
      (∀ name newID now, ((s.addParticipant name newID now).2).phase = Phase.complete) ∧
      (∀ a r c i, ((s.addNote a r c i).2).phase = Phase.complete) ∧
      ((s.transitionToWriting).2).phase = Phase.complete ∧
      ((s.transitionToReading).2).phase = Phase.complete ∧
      (∀ noteID, ((s.markNoteAsRead noteID).2).phase = Phase.complete) ∧
      (∀ now, (s.advanceTurn now).phase = Phase.complete) ∧
      (∀ pid, ((s.removeParticipant pid).2).phase = Phase.complete)) := by
  constructor
  · refine ⟨fun name newID now => ?_, fun a r c i => ?_, ?_, ?_, fun noteID => ?_,
      fun now => ?_, fun pid => ?_⟩
    · rw [addParticipant_phase]
    · rw [addNote_phase]
    · rcases transitionToWriting_phase s with h | ⟨hj, hw⟩
      · rw [h]
      · rw [hj, hw]
        decide
    · rcases transitionToReading_phase s with h | ⟨hw, hr⟩
      · rw [h]
      · rw [hw, hr]
        decide
    · rw [markNoteAsRead_phase]
    · rcases advanceTurn_phase s now with h | h
      · rw [h]
      · rw [h]
        exact Phase.idx_le_three s.phase
    · rw [removeParticipant_phase]
  · intro hc
    refine ⟨fun name newID now => ?_, fun a r c i => ?_, ?_, ?_, fun noteID => ?_,
      fun now => ?_, fun pid => ?_⟩
    · rw [addParticipant_phase, hc]
    · rw [addNote_phase, hc]
    · rcases transitionToWriting_phase s with h | ⟨hj, _⟩
      · rw [h, hc]
      · rw [hc] at hj
        cases hj
    · rcases transitionToReading_phase s with h | ⟨hw, _⟩
      · rw [h, hc]
      · rw [hc] at hw
        cases hw
    · rw [markNoteAsRead_phase, hc]
    · rcases advanceTurn_phase s now with h | h
      · rw [h, hc]
      · exact h
    · rw [removeParticipant_phase, hc]

theorem participantsSorted_sorted (s : Session) : s.participantsSorted.Sorted idLE :=
  List.sorted_insertionSort idLE s.participants

theorem participantsSorted_perm (s : Session) : s.participantsSorted.Perm s.participants :=
  List.perm_insertionSort idLE s.participants

theorem sorted_idLT_of_sorted_idLE (l : List Participant)
    (hs : l.Sorted idLE) (hnd : (l.map (fun p => p.id)).Nodup) :
    l.Sorted idLT := by
  have hne : l.Pairwise (fun a b => a.id ≠ b.id) := List.pairwise_map.mp hnd
  exact (hs.and hne).imp (fun h => lt_of_le_of_ne h.1 h.2)

theorem insertionSort_eq_of_perm (l1 l2 : List Participant)
    (hperm : l1.Perm l2) (hnd : (l1.map (fun p => p.id)).Nodup) :
    List.insertionSort idLE l1 = List.insertionSort idLE l2 := by
  have h1 := List.perm_insertionSort idLE l1
  have h2 := List.perm_insertionSort idLE l2
  have hp := (h1.trans hperm).trans h2.symm
  have hnd1 : ((List.insertionSort idLE l1).map (fun p => p.id)).Nodup :=
    (h1.map (fun p => p.id)).nodup_iff.mpr hnd
  have hnd2 : ((List.insertionSort idLE l2).map (fun p => p.id)).Nodup :=
    (hp.map (fun p => p.id)).nodup_iff.mp hnd1
  exact List.eq_of_perm_of_sorted hp
    (sorted_idLT_of_sorted_idLE _ (List.sorted_insertionSort idLE l1) hnd1)
    (sorted_idLT_of_sorted_idLE _ (List.sorted_insertionSort idLE l2) hnd2)

/-- C5: in READING, `currentReader` is the participant at index
`turnCounter mod participantCount` of the participants sorted by id (the
first two conjuncts pin the sorted list down as the sorted permutation of the
roster); outside READING it is none; and it is a pure function of the turn
counter and the participant set: two sessions in READING with the same
counter and the same participants (as a set, ids distinct) yield the same
reader. -/
theorem getCurrentReader_spec (s : Session) :
    s.participantsSorted.Sorted idLE ∧
    s.participantsSorted.Perm s.participants ∧
    (s.phase ≠ Phase.reading → s.getCurrentReader = none) ∧
    (s.phase = Phase.reading → s.participantsSorted.length ≠ 0 →
      s.getCurrentReader = some (s.participantsSorted.getD
        (s.currentTurn % s.participantsSorted.length) dummyParticipant)) ∧
    (∀ s2 : Session, s.phase = Phase.reading → s2.phase = Phase.reading →
      s.currentTurn = s2.currentTurn → s.participants.Perm s2.participants →
      (s.participants.map (fun p => p.id)).Nodup →
      s.getCurrentReader = s2.getCurrentReader) := by
  refine ⟨participantsSorted_sorted s, participantsSorted_perm s, fun h => ?_,
    fun h hne => ?_, fun s2 h1 h2 ht hperm hnd => ?_⟩
  · simp [Session.getCurrentReader, h]
  · simp [Session.getCurrentReader, h, hne]
  · have hsorteq : s.participantsSorted = s2.participantsSorted :=
      insertionSort_eq_of_perm _ _ hperm hnd
    simp only [Session.getCurrentReader, Session.participantsSorted] at hsorteq ⊢
    rw [h1, h2, hsorteq, ht]

theorem availableNotesFor_currentTurn (s : Session) (t : Nat) (rid : String) :
    ({ s with currentTurn := t } : Session).availableNotesFor rid =
      s.availableNotesFor rid := rfl

theorem advanceLoop_cases (ps : List Participant) (now : Int) (fuel : Nat) :
    ∀ s : Session,
      (∃ k, 1 ≤ k ∧ k ≤ fuel ∧
        Session.advanceLoop ps now fuel s = { s with currentTurn := s.currentTurn + k } ∧
        s.availableNotesFor
          (ps.getD ((s.currentTurn + k) % ps.length) dummyParticipant).id ≠ [] ∧
        (∀ j, 1 ≤ j → j < k →
          s.availableNotesFor
            (ps.getD ((s.currentTurn + j) % ps.length) dummyParticipant).id = [])) ∨
      ((∀ j, 1 ≤ j → j ≤ fuel →
          s.availableNotesFor
            (ps.getD ((s.currentTurn + j) % ps.length) dummyParticipant).id = []) ∧
        Session.advanceLoop ps now fuel s =
          Session.completeWith { s with currentTurn := s.currentTurn + fuel } now) := by
  induction fuel with
  | zero =>
      intro s
      right
      refine ⟨fun j hj1 hj0 => absurd (le_trans hj1 hj0) (by omega), ?_⟩
      unfold Session.advanceLoop
      split <;> rfl
  | succ fuel ih =>
      intro s
      unfold Session.advanceLoop
      dsimp only
      split
      · rename_i hav
        left
        refine ⟨1, le_refl 1, by omega, rfl, ?_, fun j hj1 hj2 => absurd hj1 (by omega)⟩
        rw [availableNotesFor_currentTurn] at hav
        exact List.length_pos.mp hav
      · rename_i hav
        rw [availableNotesFor_currentTurn] at hav
        have havnil :
            s.availableNotesFor
              (ps.getD ((s.currentTurn + 1) % ps.length) dummyParticipant).id = [] :=
          List.length_eq_zero.mp (by omega)
        rcases ih { s with currentTurn := s.currentTurn + 1 } with
          ⟨k, hk1, hkf, heq, hne, hmin⟩ | ⟨hall, heq⟩
        · left
          refine ⟨k + 1, by omega, by omega, ?_, ?_, ?_⟩
          · rw [heq]
            simp only [Session.mk.injEq, true_and]
            omega
          · have hidx : s.currentTurn + 1 + k = s.currentTurn + (k + 1) := by omega
            rw [availableNotesFor_currentTurn] at hne
            simpa [hidx] using hne
          · intro j hj1 hjk
            by_cases hj : j = 1
            · rw [hj]
              exact havnil
            · have hj2 : 2 ≤ j := by omega
              have := hmin (j - 1) (by omega) (by omega)
              rw [availableNotesFor_currentTurn] at this
              have hidx : s.currentTurn + 1 + (j - 1) = s.currentTurn + j := by omega
              rwa [hidx] at this
        · right
          constructor
          · intro j hj1 hjf
            by_cases hj : j = 1
            · rw [hj]
              exact havnil
            · have := hall (j - 1) (by omega) (by omega)
              rw [availableNotesFor_currentTurn] at this
              have hidx : s.currentTurn + 1 + (j - 1) = s.currentTurn + j := by omega
              rwa [hidx] at this
          · rw [heq]
            congr 1
            simp only [Session.mk.injEq, true_and]
            omega

/-- C1: on a non-empty roster, `advanceTurn` increments the turn counter at
most one full cycle, stopping at the first participant (in sorted order,
positions counter+1 … counter+N) with at least one available note, in which
case phase and completion timestamp are untouched; if no participant in the
full cycle has an available note, the phase becomes COMPLETE and the
completion timestamp is recorded, set only if not already set — with no
condition on the notes being marked read. -/
theorem advanceTurn_spec (s : Session) (now : Int)
    (hne : s.participantsSorted ≠ []) :
    s.currentTurn < (s.advanceTurn now).currentTurn ∧
    (s.advanceTurn now).currentTurn ≤ s.currentTurn + s.participantsSorted.length ∧
    ((∃ k, 1 ≤ k ∧ k ≤ s.participantsSorted.length ∧
        (s.advanceTurn now).currentTurn = s.currentTurn + k ∧
        s.availableNotesFor
          (s.participantsSorted.getD ((s.currentTurn + k) % s.participantsSorted.length)
            dummyParticipant).id ≠ [] ∧
        (∀ j, 1 ≤ j → j < k →
          s.availableNotesFor
            (s.participantsSorted.getD ((s.currentTurn + j) % s.participantsSorted.length)
              dummyParticipant).id = []) ∧
        (s.advanceTurn now).phase = s.phase ∧
        (s.advanceTurn now).completedAt = s.completedAt) ∨
      ((∀ j, 1 ≤ j → j ≤ s.participantsSorted.length →
          s.availableNotesFor
            (s.participantsSorted.getD ((s.currentTurn + j) % s.participantsSorted.length)
              dummyParticipant).id = []) ∧
        (s.advanceTurn now).phase = Phase.complete ∧
        (s.advanceTurn now).completedAt = some (s.completedAt.getD now))) := by
  have hlen : s.participantsSorted.length ≠ 0 := by
    simpa [List.length_eq_zero] using hne
  have hadv : s.advanceTurn now =
      Session.advanceLoop s.participantsSorted now s.participantsSorted.length s := by
    unfold Session.advanceTurn
    dsimp only
    rw [if_neg hlen]
  rcases advanceLoop_cases s.participantsSorted now s.participantsSorted.length s with
    ⟨k, hk1, hkf, heq, hnav, hmin⟩ | ⟨hall, heq⟩
  · have hct : (s.advanceTurn now).currentTurn = s.currentTurn + k := by
      rw [hadv, heq]
    have hph : (s.advanceTurn now).phase = s.phase := by
      rw [hadv, heq]
    have hca : (s.advanceTurn now).completedAt = s.completedAt := by
      rw [hadv, heq]
    exact ⟨by omega, by omega, Or.inl ⟨k, hk1, hkf, hct, hnav, hmin, hph, hca⟩⟩
  · have hct : (s.advanceTurn now).currentTurn =
        s.currentTurn + s.participantsSorted.length := by
      rw [hadv, heq]
      rfl
    have hph : (s.advanceTurn now).phase = Phase.complete := by
      rw [hadv, heq]
      rfl
    have hca : (s.advanceTurn now).completedAt = some (s.completedAt.getD now) := by
      rw [hadv, heq]
      cases hc : s.completedAt <;> simp [Session.completeWith, hc]
    exact ⟨by omega, by omega, Or.inr ⟨hall, hph, hca⟩⟩

/-- C1 witness: the hypotheses of `advanceTurn_spec` hold at the concrete
reading session. -/
theorem advanceTurn_spec_witness :
    sessR.currentTurn < (sessR.advanceTurn 5).currentTurn :=
  (advanceTurn_spec sessR 5 (by decide)).1

/-- C10: `AdvanceTurn` checks no phase precondition: on any session with a
non-empty roster in which no participant has an available note — whatever the
phase, in particular a fresh JOINING session — it sets the phase directly to
COMPLETE.  Its type (`Session → Int → Session`, mirroring the error-free Go
signature) shows it reports no error. -/
theorem advanceTurn_no_phase_guard (s : Session) (now : Int)
    (hne : s.participants ≠ [])
    (hnone : ∀ p ∈ s.participants, s.availableNotesFor p.id = []) :
    (s.advanceTurn now).phase = Phase.complete := by
  have hlen : s.participantsSorted.length ≠ 0 := by
    rw [(participantsSorted_perm s).length_eq]
    simpa [List.length_eq_zero] using hne
  have hadv : s.advanceTurn now =
      Session.advanceLoop s.participantsSorted now s.participantsSorted.length s := by
    unfold Session.advanceTurn
    dsimp only
    rw [if_neg hlen]
  rcases advanceLoop_cases s.participantsSorted now s.participantsSorted.length s with
    ⟨k, _, _, _, hnav, _⟩ | ⟨_, heq⟩
  · exfalso
    apply hnav
    apply hnone
    apply (participantsSorted_perm s).subset
    have hidx : (s.currentTurn + k) % s.participantsSorted.length <
        s.participantsSorted.length :=
      Nat.mod_lt _ (Nat.pos_of_ne_zero hlen)
    rw [List.getD_eq_getElem _ _ hidx]
    exact List.getElem_mem hidx
  · rw [hadv, heq]
    rfl

/-- C10 witness: a freshly created JOINING session with no notes advances
straight to COMPLETE. -/
theorem advanceTurn_no_phase_guard_witness :
    ((newSession "Host" "QQQQ" "H" "S" 0).advanceTurn 7).phase = Phase.complete :=
  advanceTurn_no_phase_guard (newSession "Host" "QQQQ" "H" "S" 0) 7 (by decide)
    (by decide)

/-- C9: a session just created is found again by `getSessionByCode` under any
query that normalises (case-folds, after trimming) to its code, resolving to
the same session id; and a lookup whose normalised code matches no stored
entry fails with the NotFound error. -/
theorem codeLookup_spec (m : Manager) (hostName code hostID sessID : String)
    (now : Int) (q : String) (hq : normalizeCode q = normalizeCode code) :
    (∃ r, ((m.createSession hostName code hostID sessID now).2).getSessionByCode q
        = Except.ok r ∧ r.id = sessID) ∧
    (∀ m2 : Manager, (∀ e ∈ m2.sessionsByCode, e.1 ≠ normalizeCode q) →
      m2.getSessionByCode q = Except.error "session not found") := by
  constructor
  · refine ⟨newSession hostName code hostID sessID now, ?_, rfl⟩
    simp only [Manager.createSession, Manager.getSessionByCode, lookupKey, insertKey,
      newSession]
    rw [hq, List.find?_cons_of_pos]
    · rfl
    · simp
  · intro m2 hnone
    have hfind : m2.sessionsByCode.find? (fun e => e.1 == normalizeCode q) = none := by
      rw [List.find?_eq_none]
      intro e he
      simpa using hnone e he
    simp [Manager.getSessionByCode, lookupKey, hfind]

/-- C9 witness: the creation-then-lookup round trip at a concrete manager
and a lower-case variant of the stored code. -/
theorem codeLookup_spec_witness :
    ∃ r, ((newManager.createSession "Alice" "AbC4" "H" "S" 0).2).getSessionByCode " abc4 "
        = Except.ok r ∧ r.id = "S" :=
  (codeLookup_spec newManager "Alice" "AbC4" "H" "S" 0 " abc4 " (by decide)).1

theorem shouldRemove_iff (sess : Session) (now : Int) :
    shouldRemoveSession sess now = true ↔
      sess.participants.length = 0 ∨
        (sess.phase = Phase.complete ∧
          ∃ t, sess.completedAt = some t ∧ t < now - 3600) := by
  unfold shouldRemoveSession
  split
  · simp [*]
  · rename_i h0
    split
    · rename_i hc
      cases hca : sess.completedAt <;>
        simp [h0, beq_iff_eq.mp hc, hca]
    · rename_i hc
      simp only [beq_iff_eq] at hc
      simp [h0, hc]

theorem mem_sweep_sessions (now : Int) :
    ∀ (l : List (String × Session)) (acc : Manager) (e : String × Session),
      (e ∈ (l.foldl (sweepStep now) acc).sessions ↔
        e ∈ acc.sessions ∧
          ∀ x ∈ l, shouldRemoveSession x.2 now = true → x.1 ≠ e.1) := by
  intro l
  induction l with
  | nil => simp
  | cons x t ih =>
      intro acc e
      rw [List.foldl_cons, ih]
      unfold sweepStep
      by_cases hx : shouldRemoveSession x.2 now
      · simp only [if_pos hx, eraseKey, List.mem_filter, bne_iff_ne, ne_eq,
          List.mem_cons]
        constructor
        · rintro ⟨⟨he, hne⟩, ht⟩
          refine ⟨he, fun x2 hx2 hrem => ?_⟩
          rcases hx2 with rfl | hx2
          · exact fun h => hne h.symm
          · exact ht x2 hx2 hrem
        · rintro ⟨he, hall⟩
          exact ⟨⟨he, fun h => hall x (Or.inl rfl) hx h.symm⟩,
            fun x2 hx2 hrem => hall x2 (Or.inr hx2) hrem⟩
      · simp only [if_neg hx, List.mem_cons]
        constructor
        · rintro ⟨he, ht⟩
          refine ⟨he, fun x2 hx2 hrem => ?_⟩
          rcases hx2 with rfl | hx2
          · exact absurd hrem hx
          · exact ht x2 hx2 hrem
        · rintro ⟨he, hall⟩
          exact ⟨he, fun x2 hx2 hrem => hall x2 (Or.inr hx2) hrem⟩

theorem mem_sweep_codes (now : Int) :
    ∀ (l : List (String × Session)) (acc : Manager) (e : String × Session),
      (e ∈ (l.foldl (sweepStep now) acc).sessionsByCode ↔
        e ∈ acc.sessionsByCode ∧
          ∀ x ∈ l, shouldRemoveSession x.2 now = true →
            normalizeCode x.2.code ≠ e.1) := by
  intro l
  induction l with
  | nil => simp
  | cons x t ih =>
      intro acc e
      rw [List.foldl_cons, ih]
      unfold sweepStep
      by_cases hx : shouldRemoveSession x.2 now
      · simp only [if_pos hx, eraseKey, List.mem_filter, bne_iff_ne, ne_eq,
          List.mem_cons]
        constructor
        · rintro ⟨⟨he, hne⟩, ht⟩
          refine ⟨he, fun x2 hx2 hrem => ?_⟩
          rcases hx2 with rfl | hx2
          · exact fun h => hne h.symm
          · exact ht x2 hx2 hrem
        · rintro ⟨he, hall⟩
          exact ⟨⟨he, fun h => hall x (Or.inl rfl) hx h.symm⟩,
            fun x2 hx2 hrem => hall x2 (Or.inr hx2) hrem⟩
      · simp only [if_neg hx, List.mem_cons]
        constructor
        · rintro ⟨he, ht⟩
          refine ⟨he, fun x2 hx2 hrem => ?_⟩
          rcases hx2 with rfl | hx2
          · exact absurd hrem hx
          · exact ht x2 hx2 hrem
        · rintro ⟨he, hall⟩
          exact ⟨he, fun x2 hx2 hrem => hall x2 (Or.inr hx2) hrem⟩

/-- C6: a sweep pass keeps a stored session exactly when it neither has an
empty roster nor is COMPLETE with a completion timestamp older than one hour
(strictly before `now` minus 3600 seconds); and for every session it removes,
both the id-indexed entry and the normalised-code-indexed entry are gone. -/
theorem cleanupSessions_spec (m : Manager) (now : Int)
    (hkeys : (m.sessions.map (fun e => e.1)).Nodup) :
    (∀ e ∈ m.sessions,
      (e ∈ (m.cleanupSessions now).sessions ↔
        ¬(e.2.participants.length = 0 ∨
          (e.2.phase = Phase.complete ∧
            ∃ t, e.2.completedAt = some t ∧ t < now - 3600)))) ∧
    (∀ e ∈ m.sessions,
      (e.2.participants.length = 0 ∨
        (e.2.phase = Phase.complete ∧
          ∃ t, e.2.completedAt = some t ∧ t < now - 3600)) →
      (∀ e2 ∈ (m.cleanupSessions now).sessions, e2.1 ≠ e.1) ∧
      (∀ e2 ∈ (m.cleanupSessions now).sessionsByCode,
        e2.1 ≠ normalizeCode e.2.code)) := by
  constructor
  · intro e he
    rw [show m.cleanupSessions now = m.sessions.foldl (sweepStep now) m from rfl,
      mem_sweep_sessions]
    constructor
    · rintro ⟨-, hall⟩ hcond
      exact hall e he ((shouldRemove_iff e.2 now).mpr hcond) rfl
    · intro hcond
      refine ⟨he, fun x hxm hrem hkey => ?_⟩
      have hxe : x = e := List.inj_on_of_nodup_map hkeys hxm he hkey
      rw [hxe] at hrem
      exact hcond ((shouldRemove_iff e.2 now).mp hrem)
  · intro e he hcond
    have hrem : shouldRemoveSession e.2 now = true :=
      (shouldRemove_iff e.2 now).mpr hcond
    constructor
    · intro e2 he2
      have := (mem_sweep_sessions now m.sessions m e2).mp he2
      exact fun h => this.2 e he hrem h.symm
    · intro e2 he2
      have := (mem_sweep_codes now m.sessions m e2).mp he2
      exact fun h => this.2 e he hrem h.symm

/-- C6 witness: at the concrete sweep manager, the session COMPLETE for only
ten minutes survives the sweep at time 0. -/
theorem cleanupSessions_spec_witness :
    ("s3", sessRecentComplete) ∈ (sweepManager.cleanupSessions 0).sessions :=
  ((cleanupSessions_spec sweepManager 0 (by decide)).1 ("s3", sessRecentComplete)
      (by decide)).mpr
    (by
      rintro (h | ⟨hph, t, ht, hlt⟩)
      · exact absurd h (by decide)
      · simp only [sessRecentComplete, sessW] at ht
        injection ht with ht2
        omega)

theorem length_filter_ne_of_mem (l : List Participant) (uid : String)
    (hnd : (l.map (fun p => p.id)).Nodup) (p : Participant) (hp : p ∈ l)
    (hpid : p.id = uid) :
    (l.filter (fun q => q.id != uid)).length + 1 = l.length := by
  induction l with
  | nil => cases hp
  | cons a t ih =>
      rw [List.map_cons, List.nodup_cons] at hnd
      rcases hnd with ⟨hna, hnt⟩
      rcases List.mem_cons.mp hp with rfl | hpt
      · have hfa : (p.id != uid) = false := by
          simp [hpid]
        have hft : t.filter (fun q => q.id != uid) = t := by
          rw [List.filter_eq_self]
          intro q hq
          simp only [bne_iff_ne, ne_eq]
          intro hqid
          exact hna (by rw [hpid, ← hqid]; exact List.mem_map_of_mem _ hq)
        rw [List.filter_cons_of_neg (by simp [hfa]), hft, List.length_cons]
      · have haid : (a.id != uid) = true := by
          simp only [bne_iff_ne, ne_eq]
          intro h
          exact hna (by rw [h, ← hpid]; exact List.mem_map_of_mem _ hpt)
        rw [List.filter_cons_of_pos (by simp [haid]), List.length_cons,
          List.length_cons]
        rw [ih hnt hpt]

/-- C7: when the participant holding the host flag disconnects from a session
whose participant ids are distinct and whose host flag marks exactly the
participant named by `hostID`, then: with at least one other participant
remaining, exactly one remaining participant holds the host flag afterwards
and the session's host id names that participant; and when the host was the
last participant, the roster afterwards is empty. -/
theorem hostFailover_spec (s : Session) (userID : String)
    (hids : (s.participants.map (fun p => p.id)).Nodup)
    (hhost : userID = s.hostID)
    (hmem : ∃ p ∈ s.participants, p.id = userID)
    (huniq : ∀ p ∈ s.participants, (p.isHost = true ↔ p.id = s.hostID)) :
    (2 ≤ s.participants.length →
      ((handleClientDisconnect s userID).participants.countP
          (fun p => p.isHost) = 1 ∧
        ∃ p ∈ (handleClientDisconnect s userID).participants,
          p.isHost = true ∧ (handleClientDisconnect s userID).hostID = p.id)) ∧
    (s.participants.length = 1 →
      (handleClientDisconnect s userID).participants = []) := by
  obtain ⟨p0, hp0, hp0id⟩ := hmem
  have hfindsome : (s.participants.find? (fun p => p.id == userID)).isSome := by
    rw [List.find?_isSome]
    exact ⟨p0, hp0, by simp [hp0id]⟩
  obtain ⟨q, hfind⟩ := Option.isSome_iff_exists.mp hfindsome
  have hrp : s.removeParticipant userID =
      (Except.ok q,
        { s with participants := s.participants.filter (fun r => r.id != userID) }) := by
    unfold Session.removeParticipant
    rw [hfind]
  have hflen :
      (s.participants.filter (fun r => r.id != userID)).length + 1 =
        s.participants.length :=
    length_filter_ne_of_mem s.participants userID hids p0 hp0 hp0id
  have hnohost : ∀ r ∈ s.participants.filter (fun r => r.id != userID),
      r.isHost = false := by
    intro r hr
    rcases List.mem_filter.mp hr with ⟨hrmem, hrne⟩
    rw [bne_iff_ne] at hrne
    rw [← Bool.not_eq_true]
    intro hrh
    exact hrne (by rw [(huniq r hrmem).mp hrh, hhost])
  have hwash : (userID == s.hostID) = true := beq_iff_eq.mpr hhost
  constructor
  · intro hlen2
    have hfpos : 1 ≤ (s.participants.filter (fun r => r.id != userID)).length := by
      omega
    cases hcase : s.participants.filter (fun r => r.id != userID) with
    | nil => rw [hcase] at hfpos; simp at hfpos
    | cons ph rest =>
        have hres : handleClientDisconnect s userID =
            { s with
              participants := { ph with isHost := true } :: rest
              hostID := ph.id } := by
          unfold handleClientDisconnect
          rw [hrp]
          dsimp only
          rw [hwash, hcase]
          simp
        rw [hres]
        have hresthost : ∀ r ∈ rest, r.isHost = false := by
          intro r hr
          exact hnohost r (by rw [hcase]; exact List.mem_cons_of_mem _ hr)
        constructor
        · rw [List.countP_cons_of_pos _ _ (by simp)]
          rw [List.countP_eq_zero.mpr (by intro r hr; simp [hresthost r hr])]
        · exact ⟨{ ph with isHost := true }, List.mem_cons_self _ _, rfl, rfl⟩
  · intro hlen1
    have hfzero : (s.participants.filter (fun r => r.id != userID)).length = 0 := by
      omega
    have hfnil : s.participants.filter (fun r => r.id != userID) = [] :=
      List.length_eq_zero.mp hfzero
    unfold handleClientDisconnect
    rw [hrp]
    dsimp only
    rw [hwash, hfnil]
    simp

/-- C7 witness: Alice, the host of the two-person joining-phase session,
disconnects and Bob is promoted to sole host. -/
theorem hostFailover_spec_witness :
    (handleClientDisconnect { sessW with phase := Phase.joining } "A").participants.countP
      (fun p => p.isHost) = 1 :=
  ((hostFailover_spec { sessW with phase := Phase.joining } "A" (by decide) (by decide)
      (by decide) (by decide)).1 (by decide)).1

/-- C8 (claim versus code): `validateUserName` rejects the whitespace-only
name, yet the join handler — which never calls the validation functions —
accepts the same name and stores a participant carrying it: the session ends
up with two participants, one named by the raw whitespace string. -/
theorem join_bypasses_validation :
    validateUserName " " = Except.error "user name cannot be empty" ∧
    ((handleJoinSession (newSession "Host" "QQQQ" "H" "S" 0) " " "P" 1).2).participants.length
        = 2 ∧
    ∃ p ∈ ((handleJoinSession (newSession "Host" "QQQQ" "H" "S" 0) " " "P" 1).2).participants,
      p.name = " " := by
  refine ⟨by rfl, by decide, by decide⟩

end Uplift
